import Mathlib

/-!
The activation, the base-environment setup and the abort check of conda.c.

A shallow embedding of `src/src/conda.c` (with the macro `COE_CHECK_ABORT` of
`src/include/omc.h`) and theorems about it.

C strings are lists of characters, the NUL byte being `Char.ofNat 0`.
Everything the functions ask of the outside (the file system, the shell, the
allocator) is answered by a `Host` value; what they do to the outside is
recorded in a `World` value, which also keeps the trace of the calls made.
Diagnostics (`perror`, `msg`, `fprintf`) are not part of the model.
The path buffers of `conda_activate` and the `env_command` buffers of the
`conda_env_*` functions, which `sprintf` fills, are taken to be large enough
for what is written into them. The buffer `cmd` of `conda_setup_headless`, the
bound that `snprintf` is given and the size of the record buffer are part of
the model.
-/

namespace Conda

/-- A C string, without its terminator. -/
abbrev Str := List Char

/-- The terminator of a record of `env -0`. -/
def NUL : Char := Char.ofNat 0

/-- The process environment (`environ`): names and values, in order. -/
abbrev Store := List (Str × Str)

/-- `getenv(name)`: the value of the first entry of that name. -/
def getenv : Store → Str → Option Str
  | [], _ => none
  | (k, v) :: rest, name => if k = name then some v else getenv rest name

/-- The store with the entry of `name` replaced in place, or added at the end. -/
def Store.put : Store → Str → Str → Store
  | [], name, value => [(name, value)]
  | (k, v) :: rest, name, value =>
    if k = name then (k, value) :: rest else (k, v) :: Store.put rest name value

/-- `setenv(name, value, 1)` of libc: it refuses (EINVAL) an empty name and a
name holding `=`, and otherwise sets the entry, replacing an earlier one. -/
def setenv (st : Store) (name value : Str) : Store :=
  if name = [] ∨ '=' ∈ name then st else st.put name value

/-- What `split(buf, "=", 1)` hands back: `part[0]` and `part[1]`, each of
which may be a null pointer. -/
abbrev Parts := Option Str × Option Str

/-- Modelled from the spec: `split` (str.c is not under src/), called as
`split(buf, "=", 1)`. The record is cut at its first delimiter only. `part[0]`
is the text before it, and is null when the record has no key (it begins with
the delimiter); `part[1]` is everything after the first delimiter, further
delimiters included, and is null when the record has no delimiter and thus no
value. -/
def split (buf : Str) (delim : Char) : Parts :=
  if delim ∈ buf then
    (if buf.takeWhile (fun c => c != delim) = [] then none
      else some (buf.takeWhile (fun c => c != delim)),
     some ((buf.dropWhile (fun c => c != delim)).drop 1))
  else (some buf, none)

/-- The calls a run makes that reach outside the process, as they are traced. -/
inductive Event
  | mkstemp (created : Option Str)
  | access (path : Str)
  | remove (path : Str)
  | shell (command : Str)
  | fopen (path : Str)
  | fclose
  | setenv (name value : Str)
  deriving DecidableEq

/-- The constants of the build and the answers of the outside. -/
structure Host where
  /-- `STASIS_BUFSIZ` (`OMC_BUFSIZ` in omc.h), the size of the record buffer. -/
  bufsiz : Nat
  /-- `PATH_MAX` of limits.h. -/
  path_max : Nat
  /-- `globals.tmpdir`. -/
  tmpdir : Str
  /-- The six characters `mkstemp` puts in place of `XXXXXX`, making the name of
  a file that does not exist yet; `none` when it fails. An answer that is not
  six characters, or names an existing file, counts as a failure. -/
  mkstemp : Option Str
  /-- `shell(&proc, command)`: its status and what it wrote to `proc.f_stdout`. -/
  shell : Str → Int × Str
  /-- Whether `fopen` can open an existing file (descriptors, permissions). -/
  fopen_ok : Bool
  /-- Whether `split` can allocate its result for this buffer. -/
  alloc : Str → Bool

/-- What a run has touched: the files on disk, the environment, the calls made. -/
structure World where
  files : List Str
  environ : Store
  trace : List Event
  deriving DecidableEq

/-- How a call of `conda_activate` ends. -/
inductive Result
  /-- The call returned `code`. -/
  | ret (code : Int) (w : World)
  /-- The record buffer was filled without a terminator, and `strlen(buf)`
  reads past its end. -/
  | undefined
  deriving DecidableEq

/-- The state of the parsing loop. -/
structure Loop where
  /-- The part of the file not read yet. -/
  fp : Str
  /-- The end-of-file indicator of the stream. -/
  eof : Bool
  /-- The counter `i` (an `int`, which nothing reads). -/
  i : Nat
  w : World
  deriving DecidableEq

/-- One pass through the body of the parsing loop ends in the next state of
the loop, or leaves the function. -/
inductive Step
  | next (s : Loop)
  | stop (r : Result)
  deriving DecidableEq

/-- The inner loop
`while (z < sizeof(buf) && (ch = fgetc(fp)) != 0) { if (ch == EOF) break; buf[z] = ch; z++; }`:
the characters stored from position `z` on, the rest of the file, and whether
`fgetc` met the end of the file. -/
def read_record (bufsiz : Nat) : Nat → Str → Str × Str × Bool
  | z, [] => if z < bufsiz then ([], [], true) else ([], [], false)
  | z, c :: cs =>
    if z < bufsiz then
      if c = NUL then ([], cs, false)
      else
        let r := read_record bufsiz (z + 1) cs
        (c :: r.1, r.2.1, r.2.2)
    else ([], c :: cs, false)

/-- Lines 133-152 of conda.c: what the body of the parsing loop does with the
record it has in `buf`, the stream being in state `s` after the read. -/
def process_record (h : Host) (buf : Str) (s : Loop) : Step :=
  if buf.length = 0 then .next s
  else if h.alloc buf = false then .stop (.ret (-1) s.w)
  else
    match split buf '=' with
    | (none, _) => .next { s with i := s.i + 1 + 1 }
    | (some _, none) => .next { s with i := s.i + 1 + 1 }
    | (some key, some value) =>
      .next { s with i := s.i + 1,
                     w := { s.w with environ := setenv s.w.environ key value,
                                     trace := s.w.trace ++ [Event.setenv key value] } }

/-- The body of `while (!feof(fp))` in `conda_activate` (conda.c 119-152): a
record is read into `buf`, then processed. When the read has filled all of
`buf`, no terminator is left in it and `strlen(buf)` (line 131) is undefined. -/
def loop_body (h : Host) (s : Loop) : Step :=
  let r := read_record h.bufsiz 0 s.fp
  if h.bufsiz ≤ r.1.length then .stop .undefined
  else process_record h r.1 { s with fp := r.2.1, eof := r.2.2 }

/-- The loop `while (!feof(fp)) { ... }`, run for at most `fuel` passes; `none`
when the passes are used up. On leaving the loop normally the state is handed
back. -/
def parse_loop (h : Host) : Nat → Loop → Option (Loop ⊕ Result)
  | 0, s => if s.eof then some (.inl s) else none
  | fuel + 1, s =>
    if s.eof then some (.inl s)
    else
      match loop_body h s with
      | .stop r => some (.inr r)
      | .next s1 => parse_loop h fuel s1

/-- `access(path, F_OK) == 0`. -/
def access (w : World) (path : Str) : Bool := decide (path ∈ w.files)

/-- `remove(path)`. -/
def remove (w : World) (path : Str) : World :=
  { w with files := w.files.filter (fun p => p != path),
           trace := w.trace ++ [Event.remove path] }

def init_script_conda : Str := "/etc/profile.d/conda.sh".toList

def init_script_mamba : Str := "/etc/profile.d/mamba.sh".toList

/-- The command of conda.c line 100, cut to the `sizeof(command) - 1` of its
`snprintf`. -/
def activate_command (h : Host) (path_conda path_mamba env_name : Str) : Str :=
  ("source ".toList ++ path_conda ++ "; source ".toList ++ path_mamba
    ++ "; conda activate ".toList ++ env_name ++ " &>/dev/null; env -0".toList).take
    (h.path_max * 3 - 1 - 1)

/-- The function `conda_activate(root, env_name)` of conda.c. `none` only if
the parsing loop were not to end within one pass per character of the file and
one more. -/
def conda_activate (h : Host) (root env_name : Str) (w : World) : Option Result :=
  let path_conda := root ++ init_script_conda
  let path_mamba := root ++ init_script_mamba
  match h.mkstemp with
  | none => some (.ret (-1) { w with trace := w.trace ++ [Event.mkstemp none] })
  | some suffix =>
    let logfile := h.tmpdir ++ "/".toList ++ "shell_".toList ++ suffix
    if suffix.length ≠ 6 ∨ logfile ∈ w.files then
      some (.ret (-1) { w with trace := w.trace ++ [Event.mkstemp none] })
    else
      let w1 : World := { w with files := logfile :: w.files,
                                 trace := w.trace ++ [Event.mkstemp (some logfile)] }
      let w2 : World := { w1 with trace := w1.trace ++ [Event.access path_conda] }
      if access w2 path_conda = false then some (.ret (-1) (remove w2 logfile))
      else
        let w3 : World := { w2 with trace := w2.trace ++ [Event.access path_mamba] }
        if access w3 path_mamba = false then some (.ret (-1) (remove w3 logfile))
        else
          let command := activate_command h path_conda path_mamba env_name
          let w4 : World := { w3 with trace := w3.trace ++ [Event.shell command] }
          let retval := (h.shell command).1
          if retval ≠ 0 then some (.ret retval (remove w4 logfile))
          else
            let w5 : World := { w4 with trace := w4.trace ++ [Event.fopen logfile] }
            if (access w5 logfile && h.fopen_ok) = false then some (.ret (-1) w5)
            else
              let fp := (h.shell command).2
              match parse_loop h (fp.length + 1) { fp := fp, eof := false, i := 0, w := w5 } with
              | none => none
              | some (.inr r) => some r
              | some (.inl s) =>
                let w6 : World := { s.w with trace := s.w.trace ++ [Event.fclose] }
                some (.ret 0 (remove w6 logfile))

/-- The value a call returned, when it did return. -/
def return_code (r : Option Result) : Option Int :=
  match r with
  | some (.ret code _) => some code
  | _ => none

/-- A host for examples: an 8192-byte buffer, and a shell that succeeds and
captures `out`. -/
def host0 (out : Str) : Host :=
  { bufsiz := 8192, path_max := 4096, tmpdir := "/tmp".toList,
    mkstemp := some "a1B2c3".toList, shell := fun _ => (0, out),
    fopen_ok := true, alloc := fun _ => true }

/-- A world with both activation scripts installed under `/c`. -/
def world0 : World :=
  { files := ["/c/etc/profile.d/conda.sh".toList, "/c/etc/profile.d/mamba.sh".toList],
    environ := [], trace := [] }

/-- The stream of the records `recs`, each followed by its NUL. -/
def encode (recs : List Str) : Str := recs.flatMap (fun r => r ++ [NUL])

/-- A record has a key and a value: it holds a `=` and does not begin with it. -/
def well_formed (r : Str) : Bool := decide ('=' ∈ r) && (r.head? != some '=')

/-- The text of a record before its first `=`. -/
def key_of (r : Str) : Str := r.takeWhile (fun c => c != '=')

/-- The text of a record after its first `=`. -/
def value_of (r : Str) : Str := (r.dropWhile (fun c => c != '=')).drop 1

/-- The state of the loop after a record was processed, when `split` could
allocate. -/
def apply_record (s : Loop) (r : Str) : Loop :=
  if r = [] then s
  else if well_formed r then
    { s with i := s.i + 1,
             w := { s.w with environ := setenv s.w.environ (key_of r) (value_of r),
                             trace := s.w.trace ++ [Event.setenv (key_of r) (value_of r)] } }
  else { s with i := s.i + 2 }

/-- What a record does to the store: a well-formed one sets its key to its
value, any other one nothing. -/
def env_step (st : Store) (r : Str) : Store :=
  if well_formed r then setenv st (key_of r) (value_of r) else st

/-- The call gets as far as reading back what the subshell printed: `mkstemp`
makes a new file, both activation scripts exist, the subshell returns 0 having
printed `out`, the file can be opened and `split` can allocate. -/
def Captured (h : Host) (root env_name : Str) (w : World) (out : Str) : Prop :=
  (∃ suffix, h.mkstemp = some suffix ∧ suffix.length = 6 ∧
    h.tmpdir ++ "/".toList ++ "shell_".toList ++ suffix ∉ w.files) ∧
  root ++ init_script_conda ∈ w.files ∧
  root ++ init_script_mamba ∈ w.files ∧
  h.shell (activate_command h (root ++ init_script_conda) (root ++ init_script_mamba) env_name)
    = (0, out) ∧
  h.fopen_ok = true ∧
  ∀ b, h.alloc b = true

/-! ### Commands, the required tools and the base-environment setup -/

/-- A process that is still running in state `s`, or has called `exit(status)`,
or has written past the end of a buffer, after which nothing is defined. -/
inductive Run (σ : Type)
  | running (s : σ)
  | exited (status : Int) (s : σ)
  | undefined
  deriving DecidableEq

/-- Sequencing of statements: nothing runs after `exit`. -/
def Run.andThen {σ : Type} (r : Run σ) (k : σ → Run σ) : Run σ :=
  match r with
  | .running s => k s
  | .exited status s => .exited status s
  | .undefined => .undefined

/-- The macro `COE_CHECK_ABORT(COND, MSG)` of omc.h: `if (COND) { msg(...); exit(1); }`. -/
def COE_CHECK_ABORT {σ : Type} (cond : Bool) (s : σ) : Run σ :=
  if cond then .exited 1 s else .running s

/-- The fields of `struct OMC_GLOBAL` (omc.h) that conda.c reads, and the error
policy. A list that is `none` is a null pointer. -/
structure Globals where
  verbose : Bool
  always_update_base_environment : Bool
  continue_on_error : Bool
  conda_packages : Option (List Str)
  pip_packages : Option (List Str)

/-- The command interpreter: `PATH_MAX`, the status `system(command)` returns,
and what `shell_output(command, &status)` captures (`none`: a null pointer). -/
structure Shell where
  path_max : Nat
  system : Str → Int
  shell_output : Str → Option Str

/-- Modelled from the spec: `startswith` (str.c is not under src/): whether
the string begins with the pattern. -/
def startswith (sptr pattern : Str) : Bool := pattern.isPrefixOf sptr

/-- Modelled from the spec: `isempty` (str.c is not under src/): whether the
string has no character. -/
def isempty (sptr : Str) : Bool := sptr.isEmpty

/-- The pieces of a text between the occurrences of a delimiter. -/
def tokenize (delim : Char) : Str → List Str
  | [] => [[]]
  | c :: cs =>
    if c = delim then [] :: tokenize delim cs
    else
      match tokenize delim cs with
      | [] => [[c]]
      | t :: ts => (c :: t) :: ts

/-- Modelled from the spec: `strlist_append_tokenize` (strlist.c is not under
src/): the pieces of `str` between delimiters are appended to the list. -/
def strlist_append_tokenize (list : List Str) (str : Str) (delim : Char) : List Str :=
  list ++ tokenize delim str

def mamba_commands : List Str :=
  ["build".toList, "install".toList, "update".toList, "create".toList, "list".toList,
   "search".toList, "run".toList, "info".toList, "clean".toList, "activate".toList,
   "deactivate".toList]

/-- The loop of `conda_exec` over `mamba_commands` (conda.c 43-49). -/
def conda_as (args : Str) : Str :=
  if mamba_commands.any (fun c => startswith args c) then "mamba".toList else "conda".toList

/-- The command line `conda_exec(args)` hands to `system`: `snprintf` writes at
most `sizeof(command) - 1` bytes, the terminator among them. -/
def conda_command (sh : Shell) (args : Str) : Str :=
  (conda_as args ++ " ".toList ++ args).take (sh.path_max - 1 - 1)

/-- The command line `pip_exec(args)` hands to `system`. -/
def pip_command (sh : Shell) (args : Str) : Str :=
  ("python -m pip ".toList ++ args).take (sh.path_max - 1 - 1)

/-- The command line `python_exec(args)` hands to `system`. -/
def python_command (sh : Shell) (args : Str) : Str :=
  ("python ".toList ++ args).take (sh.path_max - 1 - 1)

/-- `python_exec(args)`: the status, and the commands executed so far. -/
def python_exec (sh : Shell) (args : Str) (executed : List Str) : Int × List Str :=
  (sh.system (python_command sh args), executed ++ [python_command sh args])

/-- `pip_exec(args)`. -/
def pip_exec (sh : Shell) (args : Str) (executed : List Str) : Int × List Str :=
  (sh.system (pip_command sh args), executed ++ [pip_command sh args])

/-- `conda_exec(args)`. -/
def conda_exec (sh : Shell) (args : Str) (executed : List Str) : Int × List Str :=
  (sh.system (conda_command sh args), executed ++ [conda_command sh args])

/-- The array `tools` of `conda_check_required`, without its closing NULL. -/
def tools : List Str := ["boa".toList, "conda-build".toList, "conda-verify".toList]

def check_command : Str :=
  "conda list '^boa|^conda-build|^conda-verify' | cut -d ' ' -f 1".toList

/-- The loop of conda.c 174-185: `found` after the items of the listing. -/
def count_found (result : List Str) : Nat :=
  result.foldl (fun found item =>
    if isempty item || startswith item "#".toList then found
    else tools.foldl (fun f tool => if item = tool then f + 1 else f) found) 0

/-- `conda_check_required()`: its return value, and the commands executed. -/
def conda_check_required (sh : Shell) (executed : List Str) : Int × List Str :=
  match sh.shell_output check_command with
  | some cmd_out =>
    let result := strlist_append_tokenize [] cmd_out (Char.ofNat 10)
    if count_found result < (tools.length + 1) - 1 then (1, executed ++ [check_command])
    else (0, executed ++ [check_command])
  | none => (2, executed ++ [check_command])

/-- The characters that the loop of conda.c 219-232 (and 241-254) writes:
`install `, then each item that is not empty in single quotes, followed by a
space unless it is the last item of the list. -/
def install_text (items : List Str) : Str :=
  items.enum.foldl (fun cmd e =>
    if isempty e.2 then cmd
    else cmd ++ "'".toList ++ e.2 ++ "'".toList
      ++ (if e.1 < items.length - 1 then " ".toList else [])) "install ".toList

/-- What one pass of the loop writes when the buffer has no end. -/
def install_step_text (last : Nat) (cmd : Str) (e : Nat × Str) : Str :=
  if isempty e.2 then cmd
  else cmd ++ "\'".toList ++ e.2 ++ "\'".toList
    ++ (if e.1 < last then " ".toList else [])

/-- `strcpy`, `sprintf(cmd + strlen(cmd), ...)` and `strcat` on a buffer of
`size` bytes: `text` is written behind the string in the buffer, with its
terminator. `none` stands for a buffer that was written past its end. -/
def append_to (size : Nat) (cmd : Option Str) (text : Str) : Option Str :=
  match cmd with
  | none => none
  | some c => if c.length + text.length < size then some (c ++ text) else none

/-- One pass of the loop of conda.c 223-232 for the item `e.2` of index `e.1`,
`last` being `total - 1`. -/
def install_step (size last : Nat) (cmd : Option Str) (e : Nat × Str) : Option Str :=
  if isempty e.2 then cmd
  else
    let written := append_to size cmd ("'".toList ++ e.2 ++ "'".toList)
    if e.1 < last then append_to size written " ".toList else written

/-- The argument string of conda.c 219-232 (and 241-254), composed in the
buffer `char cmd[PATH_MAX]`: `strcpy(cmd, "install ")`, then for each item that
is not empty `sprintf` of the item in single quotes and, unless it is the last
item of the list, `strcat` of a space. None of the writes is bounded: `none`
when one of them goes past the end of `cmd`. -/
def install_args (path_max : Nat) (items : List Str) : Option Str :=
  items.enum.foldl (install_step path_max (items.length - 1))
    (append_to path_max (some []) "install ".toList)

/-- Lines 201-214: the seven `config --system --set` commands, none of whose
statuses is looked at. -/
def setup_config (sh : Shell) (g : Globals) (executed : List Str) : List Str :=
  let t1 := (conda_exec sh (if g.verbose then "config --system --set quiet false".toList
    else "config --system --set quiet true".toList) executed).2
  let t2 := (conda_exec sh "config --system --set auto_update_conda false".toList t1).2
  let t3 := (conda_exec sh "config --system --set always_yes true".toList t2).2
  let t4 := (conda_exec sh "config --system --set safety_checks disabled".toList t3).2
  let t5 := (conda_exec sh "config --system --set rollback_enabled false".toList t4).2
  let t6 := (conda_exec sh "config --system --set report_errors false".toList t5).2
  (conda_exec sh "config --system --set solver libmamba".toList t6).2

/-- Lines 218-238: the base packages installed with conda. -/
def setup_conda_packages (sh : Shell) (g : Globals) (executed : List Str) : Run (List Str) :=
  match g.conda_packages with
  | none => .running executed
  | some items =>
    if items.length = 0 then .running executed
    else
      match install_args sh.path_max items with
      | none => .undefined
      | some cmd =>
        let r := conda_exec sh cmd executed
        if r.1 ≠ 0 then .exited 1 r.2 else .running r.2

/-- Lines 240-260: the base packages installed with pip. -/
def setup_pip_packages (sh : Shell) (g : Globals) (executed : List Str) : Run (List Str) :=
  match g.pip_packages with
  | none => .running executed
  | some items =>
    if items.length = 0 then .running executed
    else
      match install_args sh.path_max items with
      | none => .undefined
      | some cmd =>
        let r := pip_exec sh cmd executed
        if r.1 ≠ 0 then .exited 1 r.2 else .running r.2

/-- Lines 262-267: the required tools. -/
def setup_check_required (sh : Shell) (executed : List Str) : Run (List Str) :=
  let r := conda_check_required sh executed
  if r.1 ≠ 0 then .exited 1 r.2 else .running r.2

/-- Lines 269-274: the update of the base environment. -/
def setup_update (sh : Shell) (g : Globals) (executed : List Str) : Run (List Str) :=
  if g.always_update_base_environment then
    let r := conda_exec sh "update --all".toList executed
    if r.1 ≠ 0 then .exited 1 r.2 else .running r.2
  else .running executed

/-- The function `conda_setup_headless()` of conda.c, begun with the commands
`executed` behind it. -/
def conda_setup_headless (sh : Shell) (g : Globals) (executed : List Str) : Run (List Str) :=
  (((setup_conda_packages sh g (setup_config sh g executed)).andThen
    (setup_pip_packages sh g)).andThen (setup_check_required sh)).andThen (setup_update sh g)

/-- The phases of the installer, in the order of the spec. -/
inductive Phase
  | INSTALL_CONDA_DIRECT
  | INSTALL_PIP_DIRECT
  | BUILD_CONDA_DEFERRED
  | BUILD_PIP_DEFERRED
  deriving DecidableEq

/-- What the installer has done: the phases executed and those that failed. -/
structure PhaseLog where
  executed : List Phase
  failed : List Phase
  deriving DecidableEq

/-- Modelled from the spec: one phase of the phased installer (the callers of
`delivery_install_packages`, which deliverable.h only declares, are not under
src/). The phase is executed; on a non-zero status the failure is recorded and
`COE_CHECK_ABORT` is evaluated with the condition that continue-on-error is
disabled. -/
def run_phase (g : Globals) (install : Phase → Int) (p : Phase) (log : PhaseLog) :
    Run PhaseLog :=
  if install p ≠ 0 then
    COE_CHECK_ABORT (!g.continue_on_error)
      { executed := log.executed ++ [p], failed := log.failed ++ [p] }
  else .running { log with executed := log.executed ++ [p] }

/-- Modelled from the spec: the phases run strictly in the order given, each
begun only if the process is still running. -/
def run_phases (g : Globals) (install : Phase → Int) : List Phase → PhaseLog → Run PhaseLog
  | [], log => .running log
  | p :: rest, log => (run_phase g install p log).andThen (run_phases g install rest)

/-- The phases of the spec: `START -> INSTALL_CONDA_DIRECT -> INSTALL_PIP_DIRECT
-> BUILD_CONDA_DEFERRED -> BUILD_PIP_DEFERRED -> DONE`. -/
def all_phases : List Phase :=
  [.INSTALL_CONDA_DIRECT, .INSTALL_PIP_DIRECT, .BUILD_CONDA_DEFERRED, .BUILD_PIP_DEFERRED]

/-- `conda_env_create_from_uri(name, uri)` (conda.c 277-281). -/
def conda_env_create_from_uri (sh : Shell) (name uri : Str) (executed : List Str) :
    Int × List Str :=
  conda_exec sh ("env create -n ".toList ++ name ++ " -f ".toList ++ uri) executed

/-- `conda_env_create(name, python_version, packages)` (conda.c 283-287);
`packages` may be a null pointer, which is printed as the empty string. -/
def conda_env_create (sh : Shell) (name python_version : Str) (packages : Option Str)
    (executed : List Str) : Int × List Str :=
  conda_exec sh ("create -n ".toList ++ name ++ " python=".toList ++ python_version
    ++ " ".toList ++ (match packages with | some p => p | none => [])) executed

/-- `conda_env_remove(name)` (conda.c 289-293). -/
def conda_env_remove (sh : Shell) (name : Str) (executed : List Str) : Int × List Str :=
  conda_exec sh ("env remove -n ".toList ++ name) executed

/-- `conda_env_export(name, output_dir, output_filename)` (conda.c 295-299). -/
def conda_env_export (sh : Shell) (name output_dir output_filename : Str)
    (executed : List Str) : Int × List Str :=
  conda_exec sh ("env export -n ".toList ++ name ++ " -f ".toList ++ output_dir
    ++ "/".toList ++ output_filename ++ ".yml".toList) executed

/-- `conda_index(path)` (conda.c 301-305). -/
def conda_index (sh : Shell) (path : Str) (executed : List Str) : Int × List Str :=
  conda_exec sh ("index ".toList ++ path) executed

/-- An item as `sprintf(..., "\'%s\'", item)` prints it. -/
def quoted (item : Str) : Str := "\'".toList ++ item ++ "\'".toList

/-- Whether the last item of a list is empty. -/
def ends_empty (items : List Str) : Bool :=
  match items.getLast? with
  | some x => isempty x
  | none => false

/-- The items of a list that are not empty, in order. -/
def kept (items : List Str) : List Str := items.filter (fun x => !isempty x)

/-- The space that is left behind the last quoted item when empty items
follow it. -/
def trailing (items : List Str) : Str :=
  if (kept items).isEmpty || !ends_empty items then [] else " ".toList

/-- A command interpreter for examples: the `config` commands fail with status
1, every other command succeeds, and the listing names the three tools. -/
def shell0 : Shell :=
  { path_max := 4096,
    system := fun c => if startswith c "conda config".toList then 1 else 0,
    shell_output := fun _ => some "# packages\nboa\nconda-build\nconda-verify\n".toList }

/-- A command interpreter in which exactly the command `bad` fails. -/
def shell_failing (bad : Str) : Shell :=
  { path_max := 4096,
    system := fun c => if c = bad then 1 else 0,
    shell_output := fun _ => some "boa\nconda-build\nconda-verify\n".toList }

/-- Globals for examples: quiet, no update, one conda and one pip package. -/
def globals0 : Globals :=
  { verbose := false, always_update_base_environment := false, continue_on_error := false,
    conda_packages := some ["numpy".toList], pip_packages := some ["build".toList] }

/-! ## The environment store -/

theorem getenv_put_same (st : Store) (k v : Str) : getenv (st.put k v) k = some v := by
  induction st with
  | nil => simp [Store.put, getenv]
  | cons e rest ih =>
    obtain ⟨k1, v1⟩ := e
    by_cases hk : k1 = k
    · simp [Store.put, getenv, hk]
    · simp [Store.put, getenv, hk, ih]

theorem getenv_put_other (st : Store) (k v k2 : Str) (hne : k ≠ k2) :
    getenv (st.put k v) k2 = getenv st k2 := by
  induction st with
  | nil => simp [Store.put, getenv, hne]
  | cons e rest ih =>
    obtain ⟨k1, v1⟩ := e
    by_cases hk : k1 = k
    · subst hk
      simp [Store.put, getenv, hne]
    · by_cases hk2 : k1 = k2
      · subst hk2
        simp [Store.put, getenv, hk]
      · simp [Store.put, getenv, hk, hk2, ih]

theorem getenv_setenv_same (st : Store) (k v : Str) (hk : k ≠ []) (heq : '=' ∉ k) :
    getenv (setenv st k v) k = some v := by
  simp [setenv, hk, heq, getenv_put_same]

theorem getenv_setenv_other (st : Store) (k v k2 : Str) (hne : k ≠ k2) :
    getenv (setenv st k v) k2 = getenv st k2 := by
  unfold setenv
  split
  · rfl
  · exact getenv_put_other st k v k2 hne

/-! ## Cutting a record at its first `=` -/

theorem takeWhile_key (k v : Str) (heq : '=' ∉ k) :
    (k ++ '=' :: v).takeWhile (fun c => c != '=') = k := by
  induction k with
  | nil => simp
  | cons c cs ih =>
    simp only [List.mem_cons, not_or] at heq
    have hc : (c != '=') = true := by simpa using fun h => heq.1 h.symm
    simp [List.takeWhile, hc, ih heq.2]

theorem dropWhile_key (k v : Str) (heq : '=' ∉ k) :
    (k ++ '=' :: v).dropWhile (fun c => c != '=') = '=' :: v := by
  induction k with
  | nil => simp
  | cons c cs ih =>
    simp only [List.mem_cons, not_or] at heq
    have hc : (c != '=') = true := by simpa using fun h => heq.1 h.symm
    simp [List.dropWhile, hc, ih heq.2]

theorem key_of_record (k v : Str) (heq : '=' ∉ k) : key_of (k ++ '=' :: v) = k :=
  takeWhile_key k v heq

theorem value_of_record (k v : Str) (heq : '=' ∉ k) : value_of (k ++ '=' :: v) = v := by
  simp [value_of, dropWhile_key k v heq]

theorem well_formed_record (k v : Str) (hk : k ≠ []) (heq : '=' ∉ k) :
    well_formed (k ++ '=' :: v) = true := by
  cases k with
  | nil => exact absurd rfl hk
  | cons c cs =>
    simp only [List.mem_cons, not_or] at heq
    simp [well_formed]
    exact fun h => heq.1 h.symm

theorem split_record (k v : Str) (hk : k ≠ []) (heq : '=' ∉ k) :
    split (k ++ '=' :: v) '=' = (some k, some v) := by
  simp [split, takeWhile_key k v heq, dropWhile_key k v heq, hk]

theorem split_no_key (v : Str) : split ('=' :: v) '=' = (none, some v) := by
  simp [split]

theorem split_no_value (r : Str) (h : '=' ∉ r) : split r '=' = (some r, none) := by
  simp [split, h]

/-- A record that holds a `=` is a key (possibly empty), the `=`, and a value. -/
theorem record_cut (r : Str) (h : '=' ∈ r) :
    r = key_of r ++ '=' :: value_of r ∧ '=' ∉ key_of r := by
  induction r with
  | nil => simp at h
  | cons c cs ih =>
    by_cases hc : c = '='
    · subst hc
      simp [key_of, value_of]
    · have hin : '=' ∈ cs := by
        rcases List.mem_cons.mp h with h1 | h1
        · exact absurd h1.symm hc
        · exact h1
      have hb : (c != '=') = true := by simpa using hc
      obtain ⟨h1, h2⟩ := ih hin
      constructor
      · simp only [key_of, value_of, List.takeWhile, List.dropWhile, hb] at h1 ⊢
        simpa using h1
      · simp only [key_of, List.takeWhile, hb] at h2 ⊢
        simp only [List.mem_cons, not_or]
        exact ⟨fun h => hc h.symm, h2⟩

/-! ## Reading a record -/

theorem read_record_terminated (bufsiz : Nat) (r rest : Str) (z : Nat)
    (hnul : NUL ∉ r) (hlen : z + r.length < bufsiz) :
    read_record bufsiz z (r ++ NUL :: rest) = (r, rest, false) := by
  induction r generalizing z with
  | nil =>
    have hz : z < bufsiz := by simpa using hlen
    simp [read_record, hz]
  | cons c cs ih =>
    simp only [List.mem_cons, not_or] at hnul
    simp only [List.length_cons] at hlen
    have hz : z < bufsiz := by omega
    have hc : ¬ c = NUL := fun h => hnul.1 h.symm
    simp [read_record, hz, hc, ih (z + 1) hnul.2 (by omega)]

theorem read_record_at_end (bufsiz : Nat) (r : Str) (z : Nat)
    (hnul : NUL ∉ r) (hlen : z + r.length < bufsiz) :
    read_record bufsiz z r = (r, [], true) := by
  induction r generalizing z with
  | nil =>
    have hz : z < bufsiz := by simpa using hlen
    simp [read_record, hz]
  | cons c cs ih =>
    simp only [List.mem_cons, not_or] at hnul
    simp only [List.length_cons] at hlen
    have hz : z < bufsiz := by omega
    have hc : ¬ c = NUL := fun h => hnul.1 h.symm
    simp [read_record, hz, hc, ih (z + 1) hnul.2 (by omega)]

/-- A run of `bufsiz - z` characters without a NUL fills the buffer. -/
theorem read_record_full (bufsiz : Nat) (r rest : Str) (z : Nat)
    (hnul : NUL ∉ r) (hlen : z + r.length = bufsiz) :
    (read_record bufsiz z (r ++ rest)).1 = r := by
  induction r generalizing z with
  | nil =>
    have hz : ¬ z < bufsiz := by simp at hlen; omega
    cases rest <;> simp [read_record, hz]
  | cons c cs ih =>
    simp only [List.mem_cons, not_or] at hnul
    simp only [List.length_cons] at hlen
    have hz : z < bufsiz := by omega
    have hc : ¬ c = NUL := fun h => hnul.1 h.symm
    simp [read_record, hz, hc, ih (z + 1) hnul.2 (by omega)]

theorem loop_body_full (h : Host) (s : Loop) (r rest : Str)
    (hfp : s.fp = r ++ rest) (hnul : NUL ∉ r) (hlen : r.length = h.bufsiz) :
    loop_body h s = .stop .undefined := by
  have h1 := read_record_full h.bufsiz r rest 0 hnul (by omega)
  simp [loop_body, hfp, h1, hlen]

/-! ## Processing a record -/

theorem process_record_apply (h : Host) (buf : Str) (s : Loop) (ha : h.alloc buf = true) :
    process_record h buf s = .next (apply_record s buf) := by
  by_cases hb : buf = []
  · simp [process_record, apply_record, hb]
  · have hlen : buf.length ≠ 0 := by simpa using hb
    by_cases heq : '=' ∈ buf
    · obtain ⟨hcut, hkey⟩ := record_cut buf heq
      by_cases hk : key_of buf = []
      · have hwf : well_formed buf = false := by
          rw [hcut, hk]; simp [well_formed]
        have hsp : split buf '=' = (none, some (value_of buf)) := by
          rw [hcut, hk]; simpa using split_no_key (value_of buf)
        simp [process_record, apply_record, hb, ha, hwf, hsp]
      · have hwf : well_formed buf = true := by
          rw [hcut]; exact well_formed_record _ _ hk hkey
        have hsp : split buf '=' = (some (key_of buf), some (value_of buf)) := by
          conv_lhs => rw [hcut]
          exact split_record _ _ hk hkey
        simp [process_record, apply_record, hb, ha, hwf, hsp]
    · have hwf : well_formed buf = false := by simp [well_formed, heq]
      simp [process_record, apply_record, hb, ha, hwf, split_no_value buf heq]

theorem loop_body_terminated (h : Host) (s : Loop) (r rest : Str)
    (hfp : s.fp = r ++ NUL :: rest) (hnul : NUL ∉ r) (hlen : r.length < h.bufsiz)
    (ha : h.alloc r = true) :
    loop_body h s = .next (apply_record { s with fp := rest, eof := false } r) := by
  have h1 := read_record_terminated h.bufsiz r rest 0 hnul (by omega)
  simp [loop_body, hfp, h1, Nat.not_le.mpr hlen, process_record_apply h r _ ha]

theorem loop_body_at_end (h : Host) (s : Loop) (r : Str)
    (hfp : s.fp = r) (hnul : NUL ∉ r) (hlen : r.length < h.bufsiz)
    (ha : h.alloc r = true) :
    loop_body h s = .next (apply_record { s with fp := [], eof := true } r) := by
  have h1 := read_record_at_end h.bufsiz r 0 hnul (by omega)
  simp [loop_body, hfp, h1, Nat.not_le.mpr hlen, process_record_apply h r _ ha]

theorem apply_record_fp (s : Loop) (r : Str) : (apply_record s r).fp = s.fp := by
  unfold apply_record; split_ifs <;> rfl

theorem apply_record_eof (s : Loop) (r : Str) : (apply_record s r).eof = s.eof := by
  unfold apply_record; split_ifs <;> rfl

theorem apply_record_files (s : Loop) (r : Str) : (apply_record s r).w.files = s.w.files := by
  unfold apply_record; split_ifs <;> rfl

theorem foldl_apply_record_fp (recs : List Str) (s : Loop) :
    (recs.foldl apply_record s).fp = s.fp := by
  induction recs generalizing s with
  | nil => rfl
  | cons r rs ih => simp [List.foldl, ih, apply_record_fp]

theorem foldl_apply_record_eof (recs : List Str) (s : Loop) :
    (recs.foldl apply_record s).eof = s.eof := by
  induction recs generalizing s with
  | nil => rfl
  | cons r rs ih => simp [List.foldl, ih, apply_record_eof]

theorem foldl_apply_record_files (recs : List Str) (s : Loop) :
    (recs.foldl apply_record s).w.files = s.w.files := by
  induction recs generalizing s with
  | nil => rfl
  | cons r rs ih => simp [List.foldl, ih, apply_record_files]

/-! ## The parsing loop -/

theorem encode_cons (r : Str) (recs : List Str) :
    encode (r :: recs) = r ++ NUL :: encode recs := by
  simp [encode]

/-- The loop over a stream of terminated records, followed by a last one that
the end of the file closes: every record is processed in turn, and the loop
ends. -/
theorem parse_loop_records (h : Host) (hall : ∀ b, h.alloc b = true)
    (recs : List Str) (last : Str) (fuel : Nat) (s : Loop)
    (hrecs : ∀ r ∈ recs, NUL ∉ r ∧ r.length < h.bufsiz)
    (hlast : NUL ∉ last ∧ last.length < h.bufsiz)
    (heof : s.eof = false) (hfp : s.fp = encode recs ++ last)
    (hfuel : s.fp.length + 1 ≤ fuel) :
    parse_loop h fuel s
      = some (.inl ((recs ++ [last]).foldl apply_record { s with fp := [], eof := true })) := by
  induction recs generalizing fuel s with
  | nil =>
    cases fuel with
    | zero => omega
    | succ f =>
      have hb := loop_body_at_end h s last (by simpa [encode] using hfp) hlast.1 hlast.2
        (hall last)
      have he : (apply_record { s with fp := [], eof := true } last).eof = true := by
        rw [apply_record_eof]
      cases f with
      | zero => simp [parse_loop, heof, hb, he]
      | succ f2 => simp [parse_loop, heof, hb, he]
  | cons r rs ih =>
    cases fuel with
    | zero => omega
    | succ f =>
      have hr := hrecs r (List.mem_cons_self _ _)
      have hfp2 : s.fp = r ++ NUL :: (encode rs ++ last) := by
        rw [hfp, encode_cons]; simp
      have hb := loop_body_terminated h s r (encode rs ++ last) hfp2 hr.1 hr.2 (hall r)
      have hlen : s.fp.length = r.length + 1 + (encode rs ++ last).length := by
        rw [hfp2]; simp; omega
      have hnext := ih f (apply_record { s with fp := encode rs ++ last, eof := false } r)
        (fun x hx => hrecs x (List.mem_cons_of_mem _ hx))
        (by rw [apply_record_eof]) (by rw [apply_record_fp])
        (by rw [apply_record_fp]; simp only []; omega)
      simp only [parse_loop, heof, hb, Bool.false_eq_true, if_false, hnext]
      congr 2
      simp only [List.cons_append, List.foldl_cons]
      congr 1
      unfold apply_record
      split_ifs <;> rfl

theorem apply_record_environ (s : Loop) (r : Str) :
    (apply_record s r).w.environ = env_step s.w.environ r := by
  unfold apply_record env_step
  by_cases hr : r = []
  · subst hr; simp [well_formed]
  · by_cases hw : well_formed r = true
    · simp [hr, hw]
    · simp [hr, hw]

theorem foldl_apply_record_environ (recs : List Str) (s : Loop) :
    (recs.foldl apply_record s).w.environ = recs.foldl env_step s.w.environ := by
  induction recs generalizing s with
  | nil => rfl
  | cons r rs ih => simp [List.foldl, ih, apply_record_environ]

theorem foldl_env_step_filter (recs : List Str) (st : Store) :
    recs.foldl env_step st
      = (recs.filter well_formed).foldl (fun e r => setenv e (key_of r) (value_of r)) st := by
  induction recs generalizing st with
  | nil => rfl
  | cons r rs ih =>
    by_cases hw : well_formed r = true
    · simp [List.filter, hw, env_step, ← ih]
    · simp [List.filter, hw, env_step, ← ih]

theorem filter_ne_fresh (files : List Str) (p : Str) (hp : p ∉ files) :
    (p :: files).filter (fun q => q != p) = files := by
  have h1 : files.filter (fun q => q != p) = files := by
    rw [List.filter_eq_self]
    intro q hq
    have hne : q ≠ p := fun h => hp (h ▸ hq)
    simpa using hne
  simp [List.filter, h1]

/-! ## The whole of `conda_activate` -/

/-- When the capture is read back and every record fits the buffer,
`conda_activate` returns 0; the files are those of before the call and the
store is the one the records make, taken in order. -/
theorem conda_activate_parsed (h : Host) (root env_name : Str) (w : World) (out : Str)
    (recs : List Str) (last : Str)
    (hc : Captured h root env_name w out)
    (hout : out = encode recs ++ last)
    (hrecs : ∀ r ∈ recs, NUL ∉ r ∧ r.length < h.bufsiz)
    (hlast : NUL ∉ last ∧ last.length < h.bufsiz) :
    ∃ w1, conda_activate h root env_name w = some (.ret 0 w1) ∧ w1.files = w.files ∧
      w1.environ = (recs ++ [last]).foldl env_step w.environ := by
  obtain ⟨⟨suffix, hmk, hsix, hfresh⟩, hconda, hmamba, hshell, hfopen, hall⟩ := hc
  have hloop := fun s heof hfp hfuel =>
    parse_loop_records h hall recs last (out.length + 1) s hrecs hlast heof hfp hfuel
  simp only [conda_activate, hmk, hsix, hfresh, or_self, not_true_eq_false, if_false, access, List.mem_cons, hconda, hmamba,
    or_true, true_or, decide_True, Bool.true_eq_false, hshell, ne_eq, not_true_eq_false,
    hfopen, Bool.and_self]
  rw [hloop _ rfl hout (le_refl _)]
  refine ⟨_, rfl, ?_, ?_⟩
  · simp only [remove, foldl_apply_record_files]
    exact filter_ne_fresh _ _ hfresh
  · simp only [remove, foldl_apply_record_environ]

/-- When the capture begins with as many characters as the buffer holds and no
NUL among them, the call runs into the unterminated buffer. -/
theorem conda_activate_overrun (h : Host) (root env_name : Str) (w : World) (out : Str)
    (r rest : Str)
    (hc : Captured h root env_name w out)
    (hout : out = r ++ rest) (hnul : NUL ∉ r) (hlen : r.length = h.bufsiz) :
    conda_activate h root env_name w = some .undefined := by
  obtain ⟨⟨suffix, hmk, hsix, hfresh⟩, hconda, hmamba, hshell, hfopen, _⟩ := hc
  simp only [conda_activate, hmk, hsix, hfresh, or_self, not_true_eq_false, if_false, access, List.mem_cons, hconda, hmamba,
    or_true, true_or, decide_True, Bool.true_eq_false, hshell, ne_eq, not_true_eq_false,
    hfopen, Bool.and_self]
  simp only [parse_loop, Bool.false_eq_true, if_false]
  rw [loop_body_full h _ r rest hout hnul hlen]

theorem env_step_keeps (st : Store) (r k : Str) (hr : ¬ (k ++ ['=']) <+: r) :
    getenv (env_step st r) k = getenv st k := by
  unfold env_step
  by_cases hw : well_formed r = true
  · have heq : '=' ∈ r := by
      simp only [well_formed, Bool.and_eq_true, decide_eq_true_eq] at hw
      exact hw.1
    obtain ⟨hcut, _⟩ := record_cut r heq
    have hne : key_of r ≠ k := by
      intro hk
      apply hr
      refine ⟨value_of r, ?_⟩
      conv_rhs => rw [hcut, hk]
      simp
    simp only [hw, if_true]
    exact getenv_setenv_other st _ _ k hne
  · simp [hw]

theorem foldl_env_step_keeps (recs : List Str) (st : Store) (k : Str)
    (hr : ∀ r ∈ recs, ¬ (k ++ ['=']) <+: r) :
    getenv (recs.foldl env_step st) k = getenv st k := by
  induction recs generalizing st with
  | nil => rfl
  | cons r rs ih =>
    simp only [List.foldl_cons]
    rw [ih _ (fun x hx => hr x (List.mem_cons_of_mem _ hx))]
    exact env_step_keeps st r k (hr r (List.mem_cons_self _ _))

theorem env_step_record (st : Store) (k v : Str) (hk : k ≠ []) (heq : '=' ∉ k) :
    env_step st (k ++ '=' :: v) = setenv st k v := by
  simp [env_step, well_formed_record k v hk heq, key_of_record k v heq,
    value_of_record k v heq]

theorem encode_single (r : Str) : encode [r] = r ++ [NUL] := by
  simp [encode]

theorem nul_not_mem_filled (pre : Str) (n : Nat) (c : Char) (hpre : NUL ∉ pre)
    (hc : NUL ≠ c) : NUL ∉ pre ++ List.replicate n c := by
  intro hm
  rcases List.mem_append.mp hm with h1 | h1
  · exact hpre h1
  · exact hc (List.eq_of_mem_replicate h1)

theorem length_filled (pre : Str) (n : Nat) (c : Char) :
    (pre ++ List.replicate n c).length = pre.length + n := by
  rw [List.length_append, List.length_replicate]

/-- C1, as amended: when the capture is read back and is a stream of
NUL-terminated records each shorter than the record buffer, a record `k=v`
with a non-empty key `k` that no later record carries leaves the store mapping
`k` to `v` at the return of `conda_activate`, which is 0: of several records
with one key the last one is held. -/
theorem activate_last_record_held (h : Host) (root env_name : Str) (w : World) (out : Str)
    (before later : List Str) (k v : Str)
    (hc : Captured h root env_name w out)
    (hout : out = encode (before ++ (k ++ '=' :: v) :: later))
    (hfit : ∀ r ∈ before ++ (k ++ '=' :: v) :: later, NUL ∉ r ∧ r.length < h.bufsiz)
    (hk : k ≠ []) (heq : '=' ∉ k)
    (hlater : ∀ r ∈ later, ¬ (k ++ ['=']) <+: r) :
    ∃ w1, conda_activate h root env_name w = some (.ret 0 w1) ∧
      getenv w1.environ k = some v := by
  have hb : 0 < h.bufsiz := by
    have := (hfit (k ++ '=' :: v) (by simp)).2
    omega
  obtain ⟨w1, hret, _, henv⟩ := conda_activate_parsed h root env_name w out
    (before ++ (k ++ '=' :: v) :: later) [] hc (by simp [hout]) hfit ⟨by simp, by simpa using hb⟩
  refine ⟨w1, hret, ?_⟩
  rw [henv]
  simp only [List.append_assoc, List.cons_append, List.foldl_append, List.foldl_cons,
    List.foldl_nil]
  rw [env_step_keeps _ [] k (by simp), foldl_env_step_keeps later _ k hlater,
    env_step_record _ k v hk heq]
  exact getenv_setenv_same _ k v hk heq

/-- Witness of C1: `A=1`, `B=x=y`, `A=2` leaves `A` set to `2`. -/
theorem activate_last_record_held_witness :
    ∃ w1, conda_activate (host0 (encode ["A=1".toList, "B=x=y".toList, "A=2".toList]))
        "/c".toList "base".toList world0 = some (.ret 0 w1) ∧
      getenv w1.environ "A".toList = some "2".toList :=
  activate_last_record_held (host0 (encode ["A=1".toList, "B=x=y".toList, "A=2".toList]))
    "/c".toList "base".toList world0 _ ["A=1".toList, "B=x=y".toList] [] "A".toList "2".toList
    ⟨⟨_, rfl, rfl, by decide⟩, by decide, by decide, rfl, rfl, fun _ => rfl⟩
    rfl (by decide) (by decide) (by decide) (by simp)

/-- Counterexample to C1 as stated: the record `K=xx...x` of 8192 characters
fills the 8192-byte buffer, and the call does not come to hold `K` in the
store: it runs into `strlen` of an unterminated buffer. -/
theorem activate_long_record_undefined :
    conda_activate (host0 (encode ["K=".toList ++ List.replicate 8190 'x']))
      "/c".toList "base".toList world0 = some .undefined :=
  conda_activate_overrun (host0 (encode ["K=".toList ++ List.replicate 8190 'x']))
    "/c".toList "base".toList world0 _ ("K=".toList ++ List.replicate 8190 'x') [NUL]
    ⟨⟨_, rfl, rfl, by decide⟩, by decide, by decide, rfl, rfl, fun _ => rfl⟩
    (encode_single _) (nul_not_mem_filled _ _ _ (by decide) (by decide))
    (length_filled _ _ _)

/-- C4, at the failing input: both scripts are there and the subshell returns
0, but the capture file cannot be opened again. The call returns -1 and the
temporary file `/tmp/shell_a1B2c3` is still on disk. -/
theorem activate_fopen_failure_leaks :
    conda_activate { host0 [] with fopen_ok := false } "/c".toList "base".toList world0
      = some (.ret (-1)
          { files := "/tmp/shell_a1B2c3".toList :: world0.files, environ := [],
            trace := [Event.mkstemp (some "/tmp/shell_a1B2c3".toList),
                      Event.access "/c/etc/profile.d/conda.sh".toList,
                      Event.access "/c/etc/profile.d/mamba.sh".toList,
                      Event.shell (activate_command (host0 [])
                        "/c/etc/profile.d/conda.sh".toList "/c/etc/profile.d/mamba.sh".toList
                        "base".toList),
                      Event.fopen "/tmp/shell_a1B2c3".toList] }) := by
  decide

/-- C5: when the temporary file was made, both scripts exist and the
subshell returns a status `r` other than 0, `conda_activate` returns `r`; the
temporary file is removed, so that the files are those of before the call; the
store is unchanged; and after the subshell the only call made is that
`remove`: the file is not opened and nothing is set in the environment. -/
theorem activate_shell_failure (h : Host) (root env_name : Str) (w : World) (suffix : Str)
    (r : Int)
    (hmk : h.mkstemp = some suffix) (hsix : suffix.length = 6)
    (hfresh : h.tmpdir ++ "/".toList ++ "shell_".toList ++ suffix ∉ w.files)
    (hconda : root ++ init_script_conda ∈ w.files)
    (hmamba : root ++ init_script_mamba ∈ w.files)
    (hr : (h.shell (activate_command h (root ++ init_script_conda)
      (root ++ init_script_mamba) env_name)).1 = r)
    (hr0 : r ≠ 0) :
    conda_activate h root env_name w
      = some (.ret r (World.mk w.files w.environ
          (w.trace ++ [Event.mkstemp (some (h.tmpdir ++ "/".toList ++ "shell_".toList ++ suffix)),
            Event.access (root ++ init_script_conda),
            Event.access (root ++ init_script_mamba),
            Event.shell (activate_command h (root ++ init_script_conda)
              (root ++ init_script_mamba) env_name),
            Event.remove (h.tmpdir ++ "/".toList ++ "shell_".toList ++ suffix)]))) := by
  simp only [conda_activate, hmk, hsix, hfresh, or_self, not_true_eq_false, if_false,
    access, List.mem_cons, hconda, hmamba, or_true, decide_True, Bool.true_eq_false, hr,
    ne_eq, hr0, not_false_eq_true, if_true, remove]
  have hf := filter_ne_fresh _ _ hfresh
  simp only [List.append_assoc, List.singleton_append, List.cons_append, List.nil_append]
    at hf ⊢
  rw [hf]

/-- Witness of C5: the subshell returns 127. -/
theorem activate_shell_failure_witness :
    conda_activate { host0 [] with shell := fun _ => (127, "A=b".toList ++ [NUL]) }
        "/c".toList "base".toList world0
      = some (.ret 127 (World.mk world0.files world0.environ
          (world0.trace ++ [Event.mkstemp (some ("/tmp".toList ++ "/".toList ++ "shell_".toList
              ++ "a1B2c3".toList)),
            Event.access ("/c".toList ++ init_script_conda),
            Event.access ("/c".toList ++ init_script_mamba),
            Event.shell (activate_command
              { host0 [] with shell := fun _ => (127, "A=b".toList ++ [NUL]) }
              ("/c".toList ++ init_script_conda) ("/c".toList ++ init_script_mamba)
              "base".toList),
            Event.remove ("/tmp".toList ++ "/".toList ++ "shell_".toList
              ++ "a1B2c3".toList)]))) :=
  activate_shell_failure { host0 [] with shell := fun _ => (127, "A=b".toList ++ [NUL]) }
    "/c".toList "base".toList world0 "a1B2c3".toList 127 rfl rfl (by decide) (by decide)
    (by decide) rfl (by decide)

/-- C7, as amended: when the capture that the subshell produced is opened
again, each of its records is shorter than the record buffer and `split`
allocates its result, `conda_activate` returns 0 however many of the records
are malformed, and the store it leaves is the one that the well-formed records
alone make, each applied in its turn, whether it stands before or after a
malformed one. -/
theorem activate_skips_malformed (h : Host) (root env_name : Str) (w : World) (out : Str)
    (recs : List Str) (last : Str)
    (hc : Captured h root env_name w out)
    (hout : out = encode recs ++ last)
    (hrecs : ∀ r ∈ recs, NUL ∉ r ∧ r.length < h.bufsiz)
    (hlast : NUL ∉ last ∧ last.length < h.bufsiz) :
    ∃ w1, conda_activate h root env_name w = some (.ret 0 w1) ∧
      w1.environ = ((recs ++ [last]).filter well_formed).foldl
        (fun e r => setenv e (key_of r) (value_of r)) w.environ := by
  obtain ⟨w1, hret, _, henv⟩ :=
    conda_activate_parsed h root env_name w out recs last hc hout hrecs hlast
  exact ⟨w1, hret, by rw [henv, foldl_env_step_filter]⟩

/-- Witness of C7: `A=1`, `=x`, `novalue`, `B=2`, and the empty record. -/
theorem activate_skips_malformed_witness :
    ∃ w1, conda_activate
        (host0 (encode ["A=1".toList, "=x".toList, "novalue".toList, "B=2".toList, []] ++ []))
        "/c".toList "base".toList world0 = some (.ret 0 w1) ∧
      w1.environ = ((["A=1".toList, "=x".toList, "novalue".toList, "B=2".toList, []] ++ [[]]).filter
        well_formed).foldl (fun e r => setenv e (key_of r) (value_of r)) world0.environ :=
  activate_skips_malformed
    (host0 (encode ["A=1".toList, "=x".toList, "novalue".toList, "B=2".toList, []] ++ []))
    "/c".toList "base".toList world0 _
    ["A=1".toList, "=x".toList, "novalue".toList, "B=2".toList, []] []
    ⟨⟨_, rfl, rfl, by decide⟩, by decide, by decide, rfl, rfl, fun _ => rfl⟩
    rfl (by decide) (by decide)

/-- Counterexample to C7 as stated, at three captures that the subshell
produced with status 0. First, the well-formed record `K=` with 9000
characters after it, followed by the malformed record `=x`: the record does
not fit the 8192-byte buffer, and the call does not come to hold it in the
store and return 0, it runs into `strlen` of an unterminated buffer. Second,
the capture `=x`, `A=b` when the file cannot be opened again: the call returns
-1. Third, the same capture when `split` cannot allocate its result: the call
returns -1 at the malformed record. -/
theorem activate_records_not_applied :
    conda_activate
        (host0 (("K=".toList ++ List.replicate 8190 'x')
          ++ (List.replicate 810 'x' ++ (NUL :: "=x".toList ++ [NUL]))))
        "/c".toList "base".toList world0 = some .undefined ∧
    return_code (conda_activate
        { host0 ("=x".toList ++ NUL :: "A=b".toList ++ [NUL]) with fopen_ok := false }
        "/c".toList "base".toList world0) = some (-1) ∧
    return_code (conda_activate
        { host0 ("=x".toList ++ NUL :: "A=b".toList ++ [NUL]) with alloc := fun _ => false }
        "/c".toList "base".toList world0) = some (-1) :=
  ⟨conda_activate_overrun
      (host0 (("K=".toList ++ List.replicate 8190 'x')
        ++ (List.replicate 810 'x' ++ (NUL :: "=x".toList ++ [NUL]))))
      "/c".toList "base".toList world0 _ ("K=".toList ++ List.replicate 8190 'x')
      (List.replicate 810 'x' ++ (NUL :: "=x".toList ++ [NUL]))
      ⟨⟨_, rfl, rfl, by decide⟩, by decide, by decide, rfl, rfl, fun _ => rfl⟩
      rfl (nul_not_mem_filled _ _ _ (by decide) (by decide)) (length_filled _ _ _),
   by decide, by decide⟩

/-! ## The base-environment setup -/

theorem conda_exec_snd (sh : Shell) (args : Str) (t : List Str) :
    (conda_exec sh args t).2 = t ++ [conda_command sh args] := rfl

theorem conda_exec_fst (sh : Shell) (args : Str) (t : List Str) :
    (conda_exec sh args t).1 = sh.system (conda_command sh args) := rfl

theorem pip_exec_snd (sh : Shell) (args : Str) (t : List Str) :
    (pip_exec sh args t).2 = t ++ [pip_command sh args] := rfl

theorem pip_exec_fst (sh : Shell) (args : Str) (t : List Str) :
    (pip_exec sh args t).1 = sh.system (pip_command sh args) := rfl

/-- C8, as amended: in `conda_setup_headless` a non-zero status of the
base-package conda install, of the base-package pip install, or of
`update --all` ends the run with `exit(1)`, the failing command being the last
one issued, and this whatever the continue-on-error setting is, which the
function does not read. (The statuses of the `config --system --set` commands
are not looked at. An install command is issued with the arguments `args`
that were composed in `cmd`.) -/
theorem setup_failure_is_fatal (sh : Shell) (g : Globals) (t0 : List Str) :
    (∀ items args, g.conda_packages = some items → items ≠ [] →
      install_args sh.path_max items = some args →
      sh.system (conda_command sh args) ≠ 0 →
      conda_setup_headless sh g t0
        = .exited 1 (setup_config sh g t0 ++ [conda_command sh args])) ∧
    (∀ t8 items args, setup_conda_packages sh g (setup_config sh g t0) = .running t8 →
      g.pip_packages = some items → items ≠ [] →
      install_args sh.path_max items = some args →
      sh.system (pip_command sh args) ≠ 0 →
      conda_setup_headless sh g t0
        = .exited 1 (t8 ++ [pip_command sh args])) ∧
    (∀ t8 t9 t10, setup_conda_packages sh g (setup_config sh g t0) = .running t8 →
      setup_pip_packages sh g t8 = .running t9 →
      setup_check_required sh t9 = .running t10 →
      g.always_update_base_environment = true →
      sh.system (conda_command sh "update --all".toList) ≠ 0 →
      conda_setup_headless sh g t0
        = .exited 1 (t10 ++ [conda_command sh "update --all".toList])) ∧
    (∀ b, conda_setup_headless sh { g with continue_on_error := b } t0
      = conda_setup_headless sh g t0) := by
  refine ⟨?_, ?_, ?_, ?_⟩
  · intro items args hitems hne hargs hfail
    have hlen : items.length ≠ 0 := by simpa using hne
    simp [conda_setup_headless, setup_conda_packages, hitems, hlen, hargs, conda_exec_fst,
      conda_exec_snd, hfail, Run.andThen]
  · intro t8 items args h8 hitems hne hargs hfail
    have hlen : items.length ≠ 0 := by simpa using hne
    simp [conda_setup_headless, h8, setup_pip_packages, hitems, hlen, hargs, pip_exec_fst,
      pip_exec_snd, hfail, Run.andThen]
  · intro t8 t9 t10 h8 h9 h10 hup hfail
    simp only [conda_setup_headless, h8, h9, h10, Run.andThen, setup_update, hup, if_true,
      conda_exec_fst, conda_exec_snd, ne_eq, hfail, not_false_eq_true]
  · intro b
    rfl

/-- Witness of C8: the conda install, the pip install and the update fail in turn. -/
theorem setup_failure_is_fatal_witness :
    conda_setup_headless (shell_failing "mamba install \'numpy\'".toList) globals0 []
      = .exited 1 (setup_config (shell_failing "mamba install \'numpy\'".toList) globals0 []
          ++ ["mamba install \'numpy\'".toList]) ∧
    conda_setup_headless (shell_failing "python -m pip install \'build\'".toList) globals0 []
      = .exited 1 (setup_config (shell_failing "python -m pip install \'build\'".toList)
            globals0 []
          ++ ["mamba install \'numpy\'".toList] ++ ["python -m pip install \'build\'".toList]) ∧
    conda_setup_headless (shell_failing "mamba update --all".toList)
        { globals0 with always_update_base_environment := true } []
      = .exited 1 ((setup_config (shell_failing "mamba update --all".toList)
            { globals0 with always_update_base_environment := true } []
          ++ ["mamba install \'numpy\'".toList] ++ ["python -m pip install \'build\'".toList]
          ++ [check_command])
          ++ ["mamba update --all".toList]) :=
  ⟨(setup_failure_is_fatal (shell_failing "mamba install \'numpy\'".toList) globals0 []).1
      ["numpy".toList] "install \'numpy\'".toList rfl (by decide) (by decide) (by decide),
   (setup_failure_is_fatal (shell_failing "python -m pip install \'build\'".toList)
      globals0 []).2.1 _ ["build".toList] "install \'build\'".toList (by decide) rfl
      (by decide) (by decide) (by decide),
   (setup_failure_is_fatal (shell_failing "mamba update --all".toList)
      { globals0 with always_update_base_environment := true } []).2.2.1
      (setup_config (shell_failing "mamba update --all".toList)
        { globals0 with always_update_base_environment := true } []
        ++ ["mamba install \'numpy\'".toList])
      (setup_config (shell_failing "mamba update --all".toList)
        { globals0 with always_update_base_environment := true } []
        ++ ["mamba install \'numpy\'".toList] ++ ["python -m pip install \'build\'".toList])
      (setup_config (shell_failing "mamba update --all".toList)
        { globals0 with always_update_base_environment := true } []
        ++ ["mamba install \'numpy\'".toList] ++ ["python -m pip install \'build\'".toList]
        ++ [check_command])
      (by decide) (by decide) (by decide) rfl (by decide)⟩

/-- Counterexample to C8 as stated: every `config --system --set` command
fails with status 1, and the setup runs on through the installs and the check
of the required tools, and returns. -/
theorem setup_config_failure_ignored :
    shell0.system "conda config --system --set quiet true".toList = 1 ∧
    shell0.system "conda config --system --set solver libmamba".toList = 1 ∧
    conda_setup_headless shell0 globals0 []
      = .running ["conda config --system --set quiet true".toList,
          "conda config --system --set auto_update_conda false".toList,
          "conda config --system --set always_yes true".toList,
          "conda config --system --set safety_checks disabled".toList,
          "conda config --system --set rollback_enabled false".toList,
          "conda config --system --set report_errors false".toList,
          "conda config --system --set solver libmamba".toList,
          "mamba install \'numpy\'".toList,
          "python -m pip install \'build\'".toList,
          check_command] := by
  decide

/-! ## The required tools -/

/-- What one item of the listing adds to `found`. -/
theorem found_step (item : Str) (found : Nat) :
    (if isempty item || startswith item "#".toList then found
      else tools.foldl (fun f tool => if item = tool then f + 1 else f) found)
    = found + (if item = "boa".toList then 1 else 0)
        + (if item = "conda-build".toList then 1 else 0)
        + (if item = "conda-verify".toList then 1 else 0) := by
  by_cases h1 : item = "boa".toList
  · subst h1
    have : (isempty "boa".toList || startswith "boa".toList "#".toList) = false := by decide
    rw [this]
    simp [tools]
  · by_cases h2 : item = "conda-build".toList
    · subst h2
      have : (isempty "conda-build".toList || startswith "conda-build".toList "#".toList)
          = false := by decide
      rw [this]
      simp [tools]
    · by_cases h3 : item = "conda-verify".toList
      · subst h3
        have : (isempty "conda-verify".toList || startswith "conda-verify".toList "#".toList)
            = false := by decide
        rw [this]
        simp [tools]
      · simp only [tools, List.foldl_cons, List.foldl_nil, h1, h2, h3, if_false, ite_self,
          Nat.add_zero]

theorem count_found_from (lines : List Str) (acc : Nat) :
    lines.foldl (fun found item =>
      if isempty item || startswith item "#".toList then found
      else tools.foldl (fun f tool => if item = tool then f + 1 else f) found) acc
    = acc + lines.count "boa".toList + lines.count "conda-build".toList
        + lines.count "conda-verify".toList := by
  induction lines generalizing acc with
  | nil => simp
  | cons item rest ih =>
    rw [List.foldl_cons, ih, found_step]
    simp only [List.count_cons, beq_iff_eq]
    omega

theorem count_found_eq (lines : List Str) :
    count_found lines = lines.count "boa".toList + lines.count "conda-build".toList
      + lines.count "conda-verify".toList := by
  unfold count_found
  rw [count_found_from]
  omega

theorem tool_listed (lines : List Str) (t : Str) (ht : t ∈ tools) :
    t ∈ lines.filter (fun l => !(isempty l || startswith l "#".toList)) ↔ t ∈ lines := by
  have hl : (!(isempty t || startswith t "#".toList)) = true := by
    simp only [tools, List.mem_cons, List.mem_singleton, List.not_mem_nil, or_false] at ht
    rcases ht with h | h | h <;> subst h <;> decide
  rw [List.mem_filter]
  exact ⟨fun h => h.1, fun h => ⟨h, hl⟩⟩

/-- Where the check of the required tools is right: given that the listing
was obtained and that none of `boa`, `conda-build`, `conda-verify` is on more
than one line of it, `conda_check_required` returns 0 exactly when each of the
three occurs among the non-empty, non-`#` lines, and 1 otherwise. A non-zero
return makes `conda_setup_headless`, once the base packages are installed, end
the run with `exit(1)` right after the listing command. -/
theorem check_required_iff (sh : Shell) (executed : List Str) (cmd_out : Str)
    (hout : sh.shell_output check_command = some cmd_out)
    (hdup : ∀ t ∈ tools, (strlist_append_tokenize [] cmd_out (Char.ofNat 10)).count t ≤ 1) :
    ((conda_check_required sh executed).1 = 0 ↔
      ∀ t ∈ tools, t ∈ (strlist_append_tokenize [] cmd_out (Char.ofNat 10)).filter
        (fun l => !(isempty l || startswith l "#".toList))) ∧
    ((conda_check_required sh executed).1 = 0 ∨ (conda_check_required sh executed).1 = 1) ∧
    ((conda_check_required sh executed).1 = 0 ↔
      3 ≤ count_found (strlist_append_tokenize [] cmd_out (Char.ofNat 10))) ∧
    (∀ g t0 t8, setup_conda_packages sh g (setup_config sh g t0) = .running t8 →
      setup_pip_packages sh g t8 = .running executed →
      (conda_check_required sh executed).1 ≠ 0 →
      conda_setup_headless sh g t0 = .exited 1 (executed ++ [check_command])) := by
  have h1 := hdup "boa".toList (by simp [tools])
  have h2 := hdup "conda-build".toList (by simp [tools])
  have h3 := hdup "conda-verify".toList (by simp [tools])
  have hval : (conda_check_required sh executed).1
      = if count_found (strlist_append_tokenize [] cmd_out (Char.ofNat 10)) < 3 then 1 else 0 := by
    simp only [conda_check_required, hout, tools, List.length_cons, List.length_nil]
    split_ifs <;> rfl
  have hz : (conda_check_required sh executed).1 = 0 ↔
      3 ≤ count_found (strlist_append_tokenize [] cmd_out (Char.ofNat 10)) := by
    rw [hval]
    split_ifs with hlt
    · constructor
      · intro h; exact absurd h (by decide)
      · intro h; omega
    · constructor
      · intro _; omega
      · intro _; rfl
  refine ⟨?_, ?_, hz, ?_⟩
  · rw [hz, count_found_eq]
    constructor
    · intro hge t ht
      rw [tool_listed _ t ht]
      simp only [tools, List.mem_cons, List.mem_singleton, List.not_mem_nil, or_false] at ht
      rcases ht with h | h | h <;> subst h <;> apply List.count_pos_iff.mp <;> omega
    · intro hall
      have m1 := List.count_pos_iff.mpr
        ((tool_listed _ "boa".toList (by simp [tools])).mp (hall _ (by simp [tools])))
      have m2 := List.count_pos_iff.mpr
        ((tool_listed _ "conda-build".toList (by simp [tools])).mp (hall _ (by simp [tools])))
      have m3 := List.count_pos_iff.mpr
        ((tool_listed _ "conda-verify".toList (by simp [tools])).mp (hall _ (by simp [tools])))
      omega
  · rw [hval]
    split_ifs
    · exact Or.inr rfl
    · exact Or.inl rfl
  · intro g t0 t8 h8 h9 hne
    have hsnd : (conda_check_required sh executed).2 = executed ++ [check_command] := by
      simp only [conda_check_required, hout]
      split_ifs <;> rfl
    simp only [conda_setup_headless, h8, h9, Run.andThen, setup_check_required, ne_eq, hne,
      not_false_eq_true, if_true, hsnd]

/-- An instance: a listing with a header line, `boa` and `conda-build`, and no
`conda-verify`. -/
theorem check_required_iff_witness :
    ((conda_check_required
        { shell0 with shell_output := fun _ => some "# packages\nboa\nconda-build\n".toList }
        ["mamba install \'numpy\'".toList]).1 = 0 ↔
      ∀ t ∈ tools, t ∈ (strlist_append_tokenize [] "# packages\nboa\nconda-build\n".toList
        (Char.ofNat 10)).filter (fun l => !(isempty l || startswith l "#".toList))) ∧
    (conda_check_required
        { shell0 with shell_output := fun _ => some "# packages\nboa\nconda-build\n".toList }
        ["mamba install \'numpy\'".toList]).1 = 1 :=
  ⟨(check_required_iff
      { shell0 with shell_output := fun _ => some "# packages\nboa\nconda-build\n".toList }
      ["mamba install \'numpy\'".toList] "# packages\nboa\nconda-build\n".toList rfl
      (by decide)).1, by decide⟩

/-- C9, at the failing input: the listing has a header line, `boa` on two
lines and `conda-build`, and no `conda-verify`. `conda_check_required` counts
three matching lines and returns 0, and `conda_setup_headless` does not end
the run: it returns after the listing command. -/
theorem check_required_counts_duplicates :
    "conda-verify".toList ∉ strlist_append_tokenize []
      "# packages\nboa\nboa\nconda-build\n".toList (Char.ofNat 10) ∧
    count_found (strlist_append_tokenize []
      "# packages\nboa\nboa\nconda-build\n".toList (Char.ofNat 10)) = 3 ∧
    (conda_check_required
      { shell0 with shell_output := fun _ => some "# packages\nboa\nboa\nconda-build\n".toList }
      []).1 = 0 ∧
    conda_setup_headless
      { shell0 with shell_output := fun _ => some "# packages\nboa\nboa\nconda-build\n".toList }
      { globals0 with conda_packages := none, pip_packages := none } []
      = .running (setup_config shell0 globals0 [] ++ [check_command]) := by
  decide

/-! ## The abort check -/

theorem run_phases_all_succeed (g : Globals) (install : Phase → Int) (before rest : List Phase)
    (log : PhaseLog) (hbefore : ∀ q ∈ before, install q = 0) :
    run_phases g install (before ++ rest) log
      = run_phases g install rest { log with executed := log.executed ++ before } := by
  induction before generalizing log with
  | nil => simp
  | cons q qs ih =>
    have hq : install q = 0 := hbefore q (List.mem_cons_self _ _)
    have hstep : run_phases g install (q :: qs ++ rest) log
        = run_phases g install (qs ++ rest) { log with executed := log.executed ++ [q] } := by
      simp only [List.cons_append, run_phases, run_phase, hq, ne_eq, not_true_eq_false,
        if_false, Run.andThen, List.append_eq]
    rw [hstep, ih _ (fun x hx => hbefore x (List.mem_cons_of_mem _ hx))]
    simp

/-- C10: `COE_CHECK_ABORT` with a true condition ends the process with status
1 and what follows it does not run; with a false condition it does nothing and
what follows runs. With continue-on-error disabled, its condition in the
installer is true, and the first phase whose command fails is the last phase
executed: the run exits with status 1 and no later phase is begun. -/
theorem abort_check_halts (g : Globals) (install : Phase → Int) (before after : List Phase)
    (p : Phase) (log : PhaseLog)
    (hcoe : g.continue_on_error = false)
    (hbefore : ∀ q ∈ before, install q = 0) (hp : install p ≠ 0) :
    (∀ (σ : Type) (s : σ) (k : σ → Run σ),
      (COE_CHECK_ABORT true s).andThen k = .exited 1 s ∧
      (COE_CHECK_ABORT false s).andThen k = k s) ∧
    (!g.continue_on_error) = true ∧
    run_phases g install (before ++ p :: after) log
      = .exited 1 { executed := log.executed ++ before ++ [p], failed := log.failed ++ [p] } := by
  refine ⟨fun σ s k => ⟨rfl, rfl⟩, by simp [hcoe], ?_⟩
  rw [run_phases_all_succeed g install before (p :: after) log hbefore]
  simp [run_phases, run_phase, hp, hcoe, COE_CHECK_ABORT, Run.andThen]

/-- Witness of C10: the pip installation fails, and the two build phases are
not begun. -/
theorem abort_check_halts_witness :
    (∀ (σ : Type) (s : σ) (k : σ → Run σ),
      (COE_CHECK_ABORT true s).andThen k = .exited 1 s ∧
      (COE_CHECK_ABORT false s).andThen k = k s) ∧
    (!globals0.continue_on_error) = true ∧
    run_phases globals0 (fun q => if q = Phase.INSTALL_PIP_DIRECT then 2 else 0)
        ([Phase.INSTALL_CONDA_DIRECT] ++ Phase.INSTALL_PIP_DIRECT ::
          [Phase.BUILD_CONDA_DEFERRED, Phase.BUILD_PIP_DEFERRED])
        { executed := [], failed := [] }
      = .exited 1 { executed := [] ++ [Phase.INSTALL_CONDA_DIRECT] ++ [Phase.INSTALL_PIP_DIRECT],
                    failed := [] ++ [Phase.INSTALL_PIP_DIRECT] } :=
  abort_check_halts globals0 (fun q => if q = Phase.INSTALL_PIP_DIRECT then 2 else 0)
    [Phase.INSTALL_CONDA_DIRECT] [Phase.BUILD_CONDA_DEFERRED, Phase.BUILD_PIP_DEFERRED]
    Phase.INSTALL_PIP_DIRECT { executed := [], failed := [] } rfl (by decide) (by decide)

/-! ## The program that `conda_exec` runs -/

theorem conda_as_mamba_iff (args : Str) :
    conda_as args = "mamba".toList ↔ ∃ c ∈ mamba_commands, c <+: args := by
  unfold conda_as
  by_cases h : mamba_commands.any (fun c => startswith args c) = true
  · simp only [h, if_true, true_iff]
    obtain ⟨c, hc, hp⟩ := List.any_eq_true.mp h
    exact ⟨c, hc, List.isPrefixOf_iff_prefix.mp hp⟩
  · simp only [h, Bool.false_eq_true, if_false]
    constructor
    · intro hne
      exact absurd hne (by decide)
    · rintro ⟨c, hc, hp⟩
      have hb : c.isPrefixOf args = true := List.isPrefixOf_iff_prefix.mpr hp
      exact absurd (List.any_eq_true.mpr ⟨c, hc, hb⟩) h

theorem conda_as_conda_iff (args : Str) :
    conda_as args = "conda".toList ↔ ¬ ∃ c ∈ mamba_commands, c <+: args := by
  rw [← conda_as_mamba_iff]
  unfold conda_as
  split_ifs
  · simp
  · simp

theorem conda_as_length (args : Str) : (conda_as args).length = 5 := by
  unfold conda_as
  split_ifs <;> rfl

theorem conda_command_fits (sh : Shell) (args : Str)
    (hfit : 5 + 1 + args.length ≤ sh.path_max - 1 - 1) :
    conda_command sh args = conda_as args ++ " ".toList ++ args := by
  unfold conda_command
  apply List.take_of_length_le
  simp only [List.length_append, conda_as_length]
  exact hfit

theorem conda_as_config (rest : Str) :
    conda_as ("config --system --set ".toList ++ rest) = "conda".toList := by
  simp [conda_as, mamba_commands, startswith]

theorem conda_as_env (rest : Str) : conda_as ("env ".toList ++ rest) = "conda".toList := by
  simp [conda_as, mamba_commands, startswith]

theorem conda_as_index (rest : Str) : conda_as ("index ".toList ++ rest) = "conda".toList := by
  simp [conda_as, mamba_commands, startswith]

theorem conda_as_install (rest : Str) :
    conda_as ("install ".toList ++ rest) = "mamba".toList := by
  simp [conda_as, mamba_commands, startswith]

theorem conda_as_create (rest : Str) :
    conda_as ("create -n ".toList ++ rest) = "mamba".toList := by
  simp [conda_as, mamba_commands, startswith]

theorem conda_exec_line (sh : Shell) (args : Str) (t : List Str) :
    conda_exec sh args t = (sh.system (conda_command sh args), t ++ [conda_command sh args]) :=
  rfl

/-- C11, as amended: `conda_exec` chooses the program by a test of how the raw
argument string begins. For every `args` whose command line fits the
`sizeof(command) - 1` given to `snprintf`, the command executed is `mamba `
followed by `args` when `args` begins with one of the listed words, and
`conda ` followed by `args` otherwise; a longer line is cut to that size. The
`config --system --set`, `env create`, `env remove`, `env export` and `index`
commands of conda.c run under conda; `install`, `create -n` and `update --all`
run under mamba, and so does `listing`. -/
theorem conda_exec_program (sh : Shell) (args : Str) (t : List Str)
    (hfit : 5 + 1 + args.length ≤ sh.path_max - 1 - 1) :
    ((∃ c ∈ mamba_commands, c <+: args) →
      conda_exec sh args t
        = (sh.system ("mamba ".toList ++ args), t ++ ["mamba ".toList ++ args])) ∧
    ((¬ ∃ c ∈ mamba_commands, c <+: args) →
      conda_exec sh args t
        = (sh.system ("conda ".toList ++ args), t ++ ["conda ".toList ++ args])) ∧
    (∀ a u, conda_exec sh a u = (sh.system ((conda_as a ++ " ".toList ++ a).take
        (sh.path_max - 1 - 1)), u ++ [(conda_as a ++ " ".toList ++ a).take
        (sh.path_max - 1 - 1)])) ∧
    (∀ rest, conda_as ("config --system --set ".toList ++ rest) = "conda".toList) ∧
    (∀ name uri u, conda_env_create_from_uri sh name uri u
      = conda_exec sh ("env create -n ".toList ++ name ++ " -f ".toList ++ uri) u ∧
      conda_as ("env create -n ".toList ++ name ++ " -f ".toList ++ uri) = "conda".toList) ∧
    (∀ name u, conda_env_remove sh name u
      = conda_exec sh ("env remove -n ".toList ++ name) u ∧
      conda_as ("env remove -n ".toList ++ name) = "conda".toList) ∧
    (∀ name dir file u, conda_env_export sh name dir file u
      = conda_exec sh ("env export -n ".toList ++ name ++ " -f ".toList ++ dir
          ++ "/".toList ++ file ++ ".yml".toList) u ∧
      conda_as ("env export -n ".toList ++ name ++ " -f ".toList ++ dir
          ++ "/".toList ++ file ++ ".yml".toList) = "conda".toList) ∧
    (∀ path u, conda_index sh path u = conda_exec sh ("index ".toList ++ path) u ∧
      conda_as ("index ".toList ++ path) = "conda".toList) ∧
    (∀ rest, conda_as ("install ".toList ++ rest) = "mamba".toList) ∧
    (∀ name ver rest, conda_as ("create -n ".toList ++ name ++ " python=".toList ++ ver
      ++ " ".toList ++ rest) = "mamba".toList) ∧
    conda_as "update --all".toList = "mamba".toList ∧
    conda_as "listing".toList = "mamba".toList := by
  have hline := conda_command_fits sh args hfit
  refine ⟨?_, ?_, fun a u => rfl, conda_as_config, ?_, ?_, ?_, ?_, conda_as_install, ?_,
    by decide, by decide⟩
  · intro hm
    rw [conda_exec_line, hline, (conda_as_mamba_iff args).mpr hm]
    rfl
  · intro hm
    rw [conda_exec_line, hline, (conda_as_conda_iff args).mpr hm]
    rfl
  · intro name uri u
    refine ⟨rfl, ?_⟩
    have h := conda_as_env ("create -n ".toList ++ name ++ " -f ".toList ++ uri)
    simpa using h
  · intro name u
    refine ⟨rfl, ?_⟩
    have h := conda_as_env ("remove -n ".toList ++ name)
    simpa using h
  · intro name dir file u
    refine ⟨rfl, ?_⟩
    have h := conda_as_env ("export -n ".toList ++ name ++ " -f ".toList ++ dir
      ++ "/".toList ++ file ++ ".yml".toList)
    simpa using h
  · intro path u
    exact ⟨rfl, conda_as_index path⟩
  · intro name ver rest
    have h := conda_as_create (name ++ " python=".toList ++ ver ++ " ".toList ++ rest)
    simpa using h

/-- Witness of C11: `list -n base` runs under mamba, `env list` under conda. -/
theorem conda_exec_program_witness :
    conda_exec shell0 "list -n base".toList []
      = (shell0.system "mamba list -n base".toList, [] ++ ["mamba list -n base".toList]) ∧
    conda_exec shell0 "env list".toList []
      = (shell0.system "conda env list".toList, [] ++ ["conda env list".toList]) :=
  ⟨(conda_exec_program shell0 "list -n base".toList [] (by decide)).1
      ⟨"list".toList, by decide, " -n base".toList, rfl⟩,
   (conda_exec_program shell0 "env list".toList [] (by decide)).2.1 (by decide)⟩

/-- Counterexample to C11 as stated: `install ` followed by 4090 characters
begins with a listed word, and with a `PATH_MAX` of 4096 the command executed
is not `mamba ` followed by the argument: it is cut to 4094 characters. -/
theorem conda_exec_cuts_long_line :
    (∃ c ∈ mamba_commands, c <+: "install ".toList ++ List.replicate 4090 'x') ∧
    (conda_exec shell0 ("install ".toList ++ List.replicate 4090 'x') []).2
      ≠ ["mamba ".toList ++ ("install ".toList ++ List.replicate 4090 'x')] ∧
    (conda_command shell0 ("install ".toList ++ List.replicate 4090 'x')).length = 4094 := by
  have hlen : (conda_command shell0 ("install ".toList ++ List.replicate 4090 'x')).length
      = 4094 := by
    rw [conda_command, List.length_take, List.length_append, List.length_append,
      conda_as_length, List.length_append, List.length_replicate]
    rfl
  refine ⟨⟨"install".toList, by decide, ' ' :: List.replicate 4090 'x', rfl⟩, ?_, hlen⟩
  intro h
  have h1 : conda_command shell0 ("install ".toList ++ List.replicate 4090 'x')
      = "mamba ".toList ++ ("install ".toList ++ List.replicate 4090 'x') :=
    List.singleton_inj.mp h
  have h2 := congrArg List.length h1
  rw [hlen, List.length_append, List.length_append, List.length_replicate] at h2
  exact absurd h2 (by decide)

/-! ## The arguments of the base-package installs -/

theorem ends_empty_cons_cons (x y : Str) (r : List Str) :
    ends_empty (x :: y :: r) = ends_empty (y :: r) := by
  simp [ends_empty, List.getLast?_cons_cons]

theorem ends_empty_of_kept_nil (l : List Str) (hl : l ≠ []) (hk : kept l = []) :
    ends_empty l = true := by
  have hall : ∀ x ∈ l, isempty x = true := by
    intro x hx
    have := (List.filter_eq_nil_iff.mp hk) x hx
    simpa using this
  have hlast : l.getLast? = some (l.getLast hl) := List.getLast?_eq_getLast l hl
  simp only [ends_empty, hlast]
  exact hall _ (List.getLast_mem hl)

theorem intercalate_cons_cons (sep a b : Str) (r : List Str) :
    List.intercalate sep (a :: b :: r) = a ++ sep ++ List.intercalate sep (b :: r) := by
  simp [List.intercalate]

theorem intercalate_single (sep a : Str) : List.intercalate sep [a] = a := by
  simp [List.intercalate]

/-- The loop of conda.c 223-232 from item `i` on, `n` being `total - 1`: the
items that are not empty are appended in quotes with one space between them,
and one more space when empty items end the list. -/
theorem install_loop (n : Nat) (l : List Str) (i : Nat) (cmd : Str)
    (hl : i + l.length = n + 1) :
    (l.enumFrom i).foldl (fun cmd e =>
      if isempty e.2 then cmd
      else cmd ++ "\'".toList ++ e.2 ++ "\'".toList
        ++ (if e.1 < n then " ".toList else [])) cmd
    = cmd ++ List.intercalate " ".toList ((kept l).map quoted) ++ trailing l := by
  induction l generalizing i cmd with
  | nil => simp [kept, trailing, List.intercalate]
  | cons x rest ih =>
    rw [List.enumFrom_cons, List.foldl_cons]
    cases rest with
    | nil =>
      have hi : ¬ i < n := by
        simp only [List.length_cons, List.length_nil] at hl
        omega
      by_cases hx : isempty x = true
      · simp [hx, kept, trailing, List.intercalate]
      · have hx2 : isempty x = false := by simpa using hx
        simp [hx2, hi, kept, trailing, ends_empty, quoted, List.intercalate]
    | cons y r =>
      have hi : i < n := by
        simp only [List.length_cons] at hl
        omega
      have ih2 := fun c => ih (i + 1) c (by simp only [List.length_cons] at hl ⊢; omega)
      by_cases hx : isempty x = true
      · have hk : kept (x :: y :: r) = kept (y :: r) := by
          simp [kept, List.filter, hx]
        simp only [hx, if_true]
        rw [ih2, hk, trailing, trailing, hk, ends_empty_cons_cons]
      · have hx2 : isempty x = false := by simpa using hx
        have hk : kept (x :: y :: r) = x :: kept (y :: r) := by
          simp only [kept, List.filter, hx2, Bool.not_false]
        simp only [hx2, Bool.false_eq_true, if_false, hi, if_true]
        rw [ih2, hk]
        cases hf : kept (y :: r) with
        | nil =>
          have he := ends_empty_of_kept_nil (y :: r) (by simp) hf
          have ht1 : trailing (y :: r) = [] := by simp [trailing, hf]
          have ht2 : trailing (x :: y :: r) = " ".toList := by
            simp [trailing, hk, ends_empty_cons_cons, he]
          rw [ht1, ht2]
          simp [quoted, List.intercalate]
        | cons f fs =>
          have ht : trailing (x :: y :: r) = trailing (y :: r) := by
            simp [trailing, hk, hf, ends_empty_cons_cons]
          rw [ht]
          simp only [List.map_cons]
          rw [intercalate_cons_cons]
          simp [quoted]

/-- The characters written for any list of items. -/
theorem install_text_eq (items : List Str) :
    install_text items
      = "install ".toList ++ List.intercalate " ".toList ((kept items).map quoted)
        ++ trailing items := by
  cases items with
  | nil => simp [install_text, kept, trailing, List.intercalate]
  | cons x rest =>
    unfold install_text
    rw [List.enum]
    exact install_loop ((x :: rest).length - 1) (x :: rest) 0 _ (by simp)

theorem install_step_text_length (last : Nat) (cmd : Str) (e : Nat × Str) :
    cmd.length ≤ (install_step_text last cmd e).length := by
  unfold install_step_text
  split_ifs <;> first | exact le_refl _ | (simp only [List.length_append]; omega)

theorem install_fold_text_length (last : Nat) (es : List (Nat × Str)) (cmd : Str) :
    cmd.length ≤ (es.foldl (install_step_text last) cmd).length := by
  induction es generalizing cmd with
  | nil => exact le_refl _
  | cons e rest ih =>
    exact le_trans (install_step_text_length last cmd e) (ih _)

theorem install_fold_none (size last : Nat) (es : List (Nat × Str)) :
    es.foldl (install_step size last) none = none := by
  induction es with
  | nil => rfl
  | cons e rest ih =>
    have h : install_step size last none e = none := by
      unfold install_step
      split_ifs <;> rfl
    rw [List.foldl_cons, h, ih]

theorem append_to_twice (size : Nat) (c t u : Str) :
    append_to size (append_to size (some c) t) u
      = if (c ++ t ++ u).length < size then some (c ++ t ++ u) else none := by
  simp only [append_to, List.length_append]
  by_cases h1 : c.length + t.length < size
  · simp only [h1, if_true, List.length_append]
  · have h2 : ¬ c.length + t.length + u.length < size := by omega
    simp only [h1, h2, if_false]

theorem append_to_once (size : Nat) (c t : Str) :
    append_to size (some c) t
      = if (c ++ t).length < size then some (c ++ t) else none := by
  simp only [append_to, List.length_append]

/-- One pass in the buffer: the text of the pass when it still fits, with its
terminator, and an overrun otherwise. -/
theorem install_step_bounded (size last : Nat) (cmd : Str) (e : Nat × Str)
    (hc : cmd.length < size) :
    install_step size last (some cmd) e
      = if (install_step_text last cmd e).length < size
        then some (install_step_text last cmd e) else none := by
  unfold install_step install_step_text
  by_cases hx : isempty e.2 = true
  · simp only [hx, if_true, hc]
  · have hx2 : isempty e.2 = false := by simpa using hx
    have ht : cmd ++ "\'".toList ++ e.2 ++ "\'".toList
        = cmd ++ ("\'".toList ++ e.2 ++ "\'".toList) := by
      simp only [List.append_assoc]
    simp only [hx2, Bool.false_eq_true, if_false, ht]
    by_cases hl : e.1 < last
    · simp only [hl, if_true]
      exact append_to_twice size cmd _ _
    · simp only [hl, if_false, List.append_nil]
      exact append_to_once size cmd _

/-- The loop in the buffer: the text of the loop when it fits, an overrun
otherwise. -/
theorem install_fold_bounded (size last : Nat) (es : List (Nat × Str)) (cmd : Str)
    (hc : cmd.length < size) :
    es.foldl (install_step size last) (some cmd)
      = if (es.foldl (install_step_text last) cmd).length < size
        then some (es.foldl (install_step_text last) cmd) else none := by
  induction es generalizing cmd with
  | nil => simp only [List.foldl_nil, hc, if_true]
  | cons e rest ih =>
    rw [List.foldl_cons, List.foldl_cons, install_step_bounded size last cmd e hc]
    by_cases h1 : (install_step_text last cmd e).length < size
    · simp only [h1, if_true]
      exact ih _ h1
    · have h2 := install_fold_text_length last rest (install_step_text last cmd e)
      have h3 : ¬ (rest.foldl (install_step_text last) (install_step_text last cmd e)).length
          < size := by omega
      simp only [h1, h3, if_false]
      exact install_fold_none size last rest

theorem install_text_fold (items : List Str) :
    install_text items
      = items.enum.foldl (install_step_text (items.length - 1)) "install ".toList := rfl

/-- The argument string in `cmd`: the text of the loop when it is shorter than
the buffer, an overrun of the buffer otherwise. -/
theorem install_args_bounded (path_max : Nat) (items : List Str) :
    install_args path_max items
      = if (install_text items).length < path_max then some (install_text items) else none := by
  unfold install_args
  rw [install_text_fold]
  by_cases h8 : ("install ".toList).length < path_max
  · have h0 : append_to path_max (some []) "install ".toList = some "install ".toList := by
      simp only [append_to, List.length_nil, Nat.zero_add, h8, if_true, List.nil_append]
    rw [h0]
    exact install_fold_bounded path_max _ _ _ h8
  · have h0 : append_to path_max (some []) "install ".toList = none := by
      simp only [append_to, List.length_nil, Nat.zero_add, h8, if_false]
    have h2 := install_fold_text_length (items.length - 1) items.enum "install ".toList
    have h3 : ¬ (items.enum.foldl (install_step_text (items.length - 1))
        "install ".toList).length < path_max := by omega
    rw [h0, install_fold_none]
    simp only [h3, if_false]

theorem kept_of_none_empty (items : List Str) (hall : ∀ item ∈ items, isempty item = false) :
    kept items = items := by
  unfold kept
  rw [List.filter_eq_self]
  intro x hx
  simp [hall x hx]

theorem trailing_of_none_empty (items : List Str)
    (hall : ∀ item ∈ items, isempty item = false) : trailing items = [] := by
  cases hlast : items.getLast? with
  | none => simp [trailing, ends_empty, hlast]
  | some x =>
    have hx : isempty x = false := hall x (List.mem_of_getLast?_eq_some hlast)
    simp [trailing, ends_empty, hlast, hx]

theorem install_text_of_none_empty (items : List Str)
    (hall : ∀ item ∈ items, isempty item = false) :
    install_text items
      = "install ".toList ++ List.intercalate " ".toList (items.map quoted) := by
  rw [install_text_eq, kept_of_none_empty items hall, trailing_of_none_empty items hall,
    List.append_nil]

/-- C12, as amended: for a package list that is not empty, whose items are all
non-empty and whose argument string is shorter than the `PATH_MAX` bytes of
`cmd`, the argument string handed to `conda_exec`, and likewise to `pip_exec`,
is `install ` followed by the items in the order of the list, each in single
quotes, with one space between two items and nothing after the last. An empty
list, or no list, issues no install command. For any list that fits, the
quoted items of the string are those of the non-empty items only; a list whose
string does not fit overruns `cmd`. -/
theorem install_args_composed (sh : Shell) (g : Globals) (t : List Str) (items : List Str)
    (hne : items ≠ []) (hall : ∀ item ∈ items, isempty item = false)
    (hfit : ("install ".toList ++ List.intercalate " ".toList (items.map quoted)).length
      < sh.path_max) :
    install_args sh.path_max items
      = some ("install ".toList ++ List.intercalate " ".toList (items.map quoted)) ∧
    (g.conda_packages = some items →
      setup_conda_packages sh g t
        = if (conda_exec sh ("install ".toList
              ++ List.intercalate " ".toList (items.map quoted)) t).1 ≠ 0
          then .exited 1 (conda_exec sh ("install ".toList
              ++ List.intercalate " ".toList (items.map quoted)) t).2
          else .running (conda_exec sh ("install ".toList
              ++ List.intercalate " ".toList (items.map quoted)) t).2) ∧
    (g.pip_packages = some items →
      setup_pip_packages sh g t
        = if (pip_exec sh ("install ".toList
              ++ List.intercalate " ".toList (items.map quoted)) t).1 ≠ 0
          then .exited 1 (pip_exec sh ("install ".toList
              ++ List.intercalate " ".toList (items.map quoted)) t).2
          else .running (pip_exec sh ("install ".toList
              ++ List.intercalate " ".toList (items.map quoted)) t).2) ∧
    (∀ g2 : Globals, g2.conda_packages = none ∨ g2.conda_packages = some [] →
      setup_conda_packages sh g2 t = .running t) ∧
    (∀ g2 : Globals, g2.pip_packages = none ∨ g2.pip_packages = some [] →
      setup_pip_packages sh g2 t = .running t) ∧
    (∀ l : List Str, install_args sh.path_max l
      = if ("install ".toList ++ List.intercalate " ".toList ((kept l).map quoted)
            ++ trailing l).length < sh.path_max
        then some ("install ".toList ++ List.intercalate " ".toList ((kept l).map quoted)
          ++ trailing l)
        else none) ∧
    (∀ l : List Str, ∀ x, x ∈ kept l ↔ x ∈ l ∧ isempty x = false) := by
  have hargs : install_args sh.path_max items
      = some ("install ".toList ++ List.intercalate " ".toList (items.map quoted)) := by
    rw [install_args_bounded, install_text_of_none_empty items hall]
    simp only [hfit, if_true]
  have hlen : items.length ≠ 0 := by simpa using hne
  refine ⟨hargs, ?_, ?_, ?_, ?_, ?_, ?_⟩
  · intro hg
    simp only [setup_conda_packages, hg, hlen, if_false, hargs]
  · intro hg
    simp only [setup_pip_packages, hg, hlen, if_false, hargs]
  · intro g2 hg
    rcases hg with h | h <;> simp [setup_conda_packages, h]
  · intro g2 hg
    rcases hg with h | h <;> simp [setup_pip_packages, h]
  · intro l
    rw [install_args_bounded, install_text_eq]
  · intro l x
    simp [kept, List.mem_filter]

/-- Witness of C12: the list `numpy`, `astropy`. -/
theorem install_args_composed_witness :
    install_args shell0.path_max ["numpy".toList, "astropy".toList]
      = some ("install ".toList ++ List.intercalate " ".toList
          (["numpy".toList, "astropy".toList].map quoted)) ∧
    install_args shell0.path_max ["numpy".toList, "astropy".toList]
      = some "install \'numpy\' \'astropy\'".toList :=
  ⟨(install_args_composed shell0 globals0 [] ["numpy".toList, "astropy".toList]
      (by decide) (by decide) (by decide)).1, by decide⟩

/-- Counterexample to C12 as stated: the list of one item of 4096 characters
is not empty and its item is not empty, and with a `PATH_MAX` of 4096 no
argument string is handed to `conda_exec`: the `sprintf` of the item runs past
the end of `cmd`. -/
theorem install_args_overrun :
    [List.replicate 4096 'x'] ≠ [] ∧
    (∀ item ∈ [List.replicate 4096 'x'], isempty item = false) ∧
    install_args shell0.path_max [List.replicate 4096 'x'] = none ∧
    setup_conda_packages shell0
        { globals0 with conda_packages := some [List.replicate 4096 'x'] } []
      = .undefined := by
  have hall : ∀ item ∈ [List.replicate 4096 'x'], isempty item = false := by
    intro item hitem
    rw [List.mem_singleton.mp hitem]
    rfl
  have hnone : install_args shell0.path_max [List.replicate 4096 'x'] = none := by
    rw [install_args_bounded, install_text_of_none_empty _ hall]
    have hlong : ¬ ("install ".toList ++ List.intercalate " ".toList
        ([List.replicate 4096 'x'].map quoted)).length < shell0.path_max := by
      rw [List.map_singleton, intercalate_single, quoted, List.length_append,
        List.length_append, List.length_append, List.length_replicate]
      decide
    simp only [hlong, if_false]
  refine ⟨List.cons_ne_nil _ _, hall, hnone, ?_⟩
  simp only [setup_conda_packages, List.length_singleton, one_ne_zero, if_false, hnone]

end Conda
